import Mathlib

/-!
Shallow embedding of `src/mnmt/trainer/trainer.py` (class `Trainer`) from the
Multi-task-NMT repository, together with theorems settling the frozen claims
about its specification.

Modelling conventions:
* Python floats carrying losses, accuracies and ratios are modelled as `ℚ`;
  the value `float('inf')` used to initialise `best_valid_loss` is modelled by
  the dedicated type `QInf` (either `inf` or a finite rational).
* The neural model, optimizer and scheduler are external collaborators: the
  outcome of every forward pass is supplied by an `Oracle`.  The trainer's own
  bookkeeping (memory banks, counters, teacher-forcing ratio, checkpoints,
  early stopping) is translated from the source line by line.
* `torch.save` calls are modelled as emitted `Checkpoint` values; `print`
  calls are dropped (pure log output).
* The trainer's mutable attributes are gathered in `FullState`; the nested
  classes `EvalMemoryBank` / `TrainMemoryBank` keep their field names.  The
  constant configuration fields of `TrainMemoryBank` (`exp_num`,
  `total_epochs`, `report_interval`) live in `Config`, the mutating counters
  (`n_epoch`, `n_steps`) in `FullState`.
* `run` / `train` / `evaluate` return `Option` results: `none` models a
  Python exception (`ZeroDivisionError`) escaping the call.
-/

attribute [local semireducible] Rat.add Rat.mul Rat.inv Rat.sub Rat.ofScientific

namespace MNMT

/-- A Python float that may be `float('inf')`; finite values are rationals. -/
inductive QInf where
  | inf : QInf
  | val : ℚ → QInf
deriving DecidableEq

/-- `a <= b` for a finite float `a` against a possibly-infinite float `b`
(`x <= float('inf')` is always true in Python). -/
def QInf.leVal (a : ℚ) : QInf → Bool
  | QInf.inf => true
  | QInf.val b => a ≤ b

/-- `args_feeder.valid_criterion`, asserted in `update` to be LOSS or ACC. -/
inductive Criterion where
  | LOSS : Criterion
  | ACC : Criterion
deriving DecidableEq

/-- A `torch.save` call in `update`: which checkpoint file is written. -/
inductive Checkpoint where
  | lossCkpt : Checkpoint
  | accCkpt : Checkpoint
deriving DecidableEq

/-- The nested `EvalMemoryBank` class of `Trainer.__init__` (lines 37-49). -/
structure EvalMemoryBank where
  best_valid_loss : QInf
  acc_valid_loss : QInf
  best_valid_acc : ℚ
  best_valid_epoch : ℤ
  best_train_step : ℤ
  early_stopping_patience : ℤ
  best_valid_loss_aux : QInf
  best_valid_acc_aux : ℚ
deriving DecidableEq

/-- The part of the external model the trainer mutates: its
`teacher_forcing_ratio` attribute. -/
structure ModelState where
  teacher_forcing_ratio : ℚ
deriving DecidableEq

/-- Constant configuration (the `args_feeder` fields the trainer reads,
plus the sizes of the data sets, which are fixed per run). -/
structure Config where
  valid_criterion : Criterion
  early_stopping_patience : ℤ
  total_epochs : ℕ
  report_interval : ℕ
  nBatches : ℕ
  nValidExamples : ℕ
  nTestExamples : ℕ
  taskIsMulti : Bool
  itos : ℕ → String
  itosAux : ℕ → String
  initModelTfr : ℚ

/-- One batch of an evaluation pass, as produced by the external model:
argmax-decoded prediction rows, reference rows (likewise for the auxiliary
task) and the scalar loss value of the batch. -/
structure EvalBatch where
  pred : List (List ℕ)
  ref : List (List ℕ)
  predAux : List (List ℕ)
  refAux : List (List ℕ)
  loss : ℚ
deriving DecidableEq

/-- External nondeterminism: the scalar training loss of the batch processed
at a given global step count, and the batches seen by the k-th call to
`evaluate` of the run (valid and test calls consume successive indices). -/
structure Oracle where
  trainLoss : ℕ → ℚ
  evalData : ℕ → List EvalBatch

/-- The triple returned by `Trainer.evaluate`. -/
structure EvalResult where
  loss : ℚ
  acc : ℚ
  accAux : ℚ
deriving DecidableEq

/-- All mutable trainer state: the evaluation memory bank, the counters of
the train memory bank, the stored teacher-forcing ratio `self.tfr`, the
external model's mutable attribute, and the count of `evaluate` calls made
so far (bookkeeping that indexes the oracle). -/
structure FullState where
  emb : EvalMemoryBank
  n_epoch : ℕ
  n_steps : ℕ
  tfr : ℚ
  model : ModelState
  evalCount : ℕ
deriving DecidableEq

/-- Initial `EvalMemoryBank` (default arguments at lines 38-41). -/
def initEMB (cfg : Config) : EvalMemoryBank :=
  { best_valid_loss := QInf.inf
    acc_valid_loss := QInf.inf
    best_valid_acc := -1
    best_valid_epoch := -1
    best_train_step := -1
    early_stopping_patience := cfg.early_stopping_patience
    best_valid_loss_aux := QInf.inf
    best_valid_acc_aux := -1 }

/-- Trainer state right after `__init__` (`self.tfr = 0.8` at line 96). -/
def initState (cfg : Config) : FullState :=
  { emb := initEMB cfg
    n_epoch := 0
    n_steps := 0
    tfr := 4/5
    model := { teacher_forcing_ratio := cfg.initModelTfr }
    evalCount := 0 }

/-- Teacher-forcing decay of line 119:
`self.tfr = max(1 - (float(10 + epoch * 1.5) / 50), 0.2)`. -/
def tfrOfEpoch (e : ℕ) : ℚ :=
  max (1 - (10 + (e : ℚ) * 1.5) / 50) 0.2

/-- The burn-in reset of `run` (lines 106-111). -/
def burnResetEMB (cfg : Config) (emb : EvalMemoryBank) : EvalMemoryBank :=
  { emb with
    best_valid_loss := QInf.inf
    best_valid_acc := 0
    early_stopping_patience := cfg.early_stopping_patience }

/-- The validation-loss branch of `Trainer.update` (lines 163-173). -/
def lossBranch (cfg : Config) (emb : EvalMemoryBank) (valid_loss : ℚ) :
    EvalMemoryBank × List Checkpoint :=
  if QInf.leVal valid_loss emb.best_valid_loss then
    ({ emb with
        best_valid_loss := QInf.val valid_loss
        early_stopping_patience := cfg.early_stopping_patience },
     if cfg.valid_criterion = Criterion.LOSS then [Checkpoint.lossCkpt] else [])
  else
    ({ emb with
        early_stopping_patience := max (emb.early_stopping_patience - 1) 0 },
     [])

/-- The validation-accuracy branch of `Trainer.update` (lines 175-183). -/
def accBranch (cfg : Config) (emb : EvalMemoryBank)
    (valid_loss valid_acc : ℚ) (n_epoch n_steps : ℕ) :
    EvalMemoryBank × List Checkpoint :=
  if valid_acc ≥ emb.best_valid_acc then
    ({ emb with
        best_valid_acc := valid_acc
        acc_valid_loss := QInf.val valid_loss
        best_valid_epoch := (n_epoch : ℤ)
        best_train_step := (n_steps : ℤ) },
     if cfg.valid_criterion = Criterion.ACC then [Checkpoint.accCkpt] else [])
  else (emb, [])

/-- `Trainer.update` (lines 151-193): both branches evaluated on every call,
returning the new state and the list of checkpoints written. -/
def update (cfg : Config) (s : FullState) (valid_loss valid_acc : ℚ) :
    FullState × List Checkpoint :=
  let r1 := lossBranch cfg s.emb valid_loss
  let r2 := accBranch cfg r1.1 valid_loss valid_acc s.n_epoch s.n_steps
  ({ s with emb := r2.1 }, r1.2 ++ r2.2)

/-- `Trainer.update_aux` (lines 195-198): it only prints; the returned `Bool`
records whether the improvement message was logged. -/
def update_aux (s : FullState) (valid_acc_aux : ℚ) : FullState × Bool :=
  (s, decide (valid_acc_aux ≥ s.emb.best_valid_acc_aux))

/-- The `update` call followed by the Multi-mode `update_aux` call, as both
`run` (lines 127-129) and `train` (lines 283-285) perform them after a
validation pass: returns the state afterwards and the checkpoints written.
`update_aux` does not change the state (it only prints). -/
def applyUpdates (cfg : Config) (s : FullState) (vres : EvalResult) :
    FullState × List Checkpoint :=
  let u := update cfg s vres.loss vres.acc
  (if cfg.taskIsMulti then (update_aux u.1 vres.accAux).1 else u.1, u.2)

/-- Line 323 of `evaluate`: `self.model.teacher_forcing_ratio = 0`. -/
def evalModelEnter (m : ModelState) : ModelState :=
  { m with teacher_forcing_ratio := 0 }

/-- Line 383 of `evaluate`:
`self.model.teacher_forcing_ratio = self.tfr`. -/
def evalModelExit (tfr : ℚ) (m : ModelState) : ModelState :=
  { m with teacher_forcing_ratio := tfr }

/-- Token decoding inside `Trainer.matching`: map each index through
`vocab.itos` and stop at the first `<eos>` token (lines 297-303). -/
def truncAtEos (itos : ℕ → String) : List ℕ → List String
  | [] => []
  | t :: ts =>
    let tok := itos t
    if tok = "<eos>" then [] else tok :: truncAtEos itos ts

/-- `''.join(...)` of the decoded row (line 304). -/
def decodeRow (itos : ℕ → String) (row : List ℕ) : String :=
  String.join (truncAtEos itos row)

/-- `Trainer.matching` (lines 291-318): count rows whose decoded prediction
string equals the decoded reference string.  Row `j` of `pred` is paired with
row `j` of `ref`. -/
def matching (itos : ℕ → String) : List (List ℕ) → List (List ℕ) → ℕ
  | [], _ => 0
  | _ :: _, [] => 0
  | p :: ps, r :: rs =>
    (if decodeRow itos p = decodeRow itos r then 1 else 0) + matching itos ps rs

/-- `Trainer.evaluate` (lines 320-386) for one call, given the batches the
model produces.  Teacher forcing is turned off on entry and restored to the
stored `tfr` on exit.  `none` models the `ZeroDivisionError` raised when the
iterator is empty (line 371) or the example count is zero (lines 380-381);
the example count is that of the main-task dataset in both divisions. -/
def evaluate (cfg : Config) (tfr : ℚ) (m : ModelState) (isTest : Bool)
    (batches : List EvalBatch) : Option (EvalResult × ModelState) :=
  let m1 := evalModelEnter m
  let correct := (batches.map (fun b => matching cfg.itos b.pred b.ref)).sum
  let correct_aux :=
    if cfg.taskIsMulti then
      (batches.map (fun b => matching cfg.itosAux b.predAux b.refAux)).sum
    else 0
  let totalLoss := (batches.map EvalBatch.loss).sum
  let nExamples := if isTest then cfg.nTestExamples else cfg.nValidExamples
  if batches.length = 0 then none
  else if nExamples = 0 then none
  else
    let epochLoss := totalLoss / (batches.length : ℚ)
    let acc := (correct : ℚ) / (nExamples : ℚ)
    let accAux := (correct_aux : ℚ) / (nExamples : ℚ)
    some (⟨epochLoss, acc, accAux⟩, evalModelExit tfr m1)

/-- A call `self.evaluate(is_test)` from the trainer: feeds the oracle data of
the current invocation index into `evaluate` and threads the state. -/
def callEvaluate (cfg : Config) (orc : Oracle) (isTest : Bool)
    (s : FullState) : Option (EvalResult × FullState) :=
  match evaluate cfg s.tfr s.model isTest (orc.evalData s.evalCount) with
  | none => none
  | some (r, m) =>
    some (r, { s with model := m, evalCount := s.evalCount + 1 })

/-- Trace record of one mid-training evaluation block (lines 277-287):
the global step and within-epoch batch index at which it fired, the
validation and test evaluation results, the checkpoints written by `update`,
whether the loss branch of that `update` saw an improvement, and the metric
passed to `scheduler.step` (the validation accuracy, line 286). -/
structure MidEval where
  step : ℕ
  batchIdx : ℕ
  validRes : EvalResult
  testRes : EvalResult
  cks : List Checkpoint
  lossImproved : Bool
  schedMetric : ℚ
deriving DecidableEq

/-- One iteration of the batch loop of `Trainer.train` (lines 229-287) at
within-epoch batch index `i`: increment `n_steps` (line 258); when
`i % report_interval == report_interval - 1` (line 261) AND
`n_steps % (10 * report_interval) == 0` (line 277), run a validation and a
test evaluation, apply `update` (then `update_aux` in Multi mode) to the
validation result, and step the scheduler on the validation accuracy (lines
279-287).  The parameter-update calls to the external optimizer are opaque.
Returns the new state and the mid-evaluation records (none or one). -/
def trainBatch (cfg : Config) (orc : Oracle) (i : ℕ) (s : FullState) :
    Option (FullState × List MidEval) :=
  let s1 : FullState := { s with n_steps := s.n_steps + 1 }
  if i % cfg.report_interval = cfg.report_interval - 1 then
    if s1.n_steps % (10 * cfg.report_interval) = 0 then
      match callEvaluate cfg orc false s1 with
      | none => none
      | some (vres, s2) =>
        match callEvaluate cfg orc true s2 with
        | none => none
        | some (tres, s3) =>
          let imp := QInf.leVal vres.loss s3.emb.best_valid_loss
          let p := applyUpdates cfg s3 vres
          some (p.1, [⟨s1.n_steps, i, vres, tres, p.2, imp, vres.acc⟩])
    else some (s1, [])
  else some (s1, [])

/-- The batch loop of `Trainer.train` over the remaining within-epoch batch
indices.  Returns the final state, the summed batch losses, and the
mid-training evaluation records in order. -/
def trainGo (cfg : Config) (orc : Oracle) :
    List ℕ → FullState → Option (FullState × ℚ × List MidEval)
  | [], s => some (s, 0, [])
  | i :: is, s =>
    let batchLoss := orc.trainLoss s.n_steps
    match trainBatch cfg orc i s with
    | none => none
    | some (s1, recs) =>
      match trainGo cfg orc is s1 with
      | none => none
      | some (s', tot, mids) => some (s', batchLoss + tot, recs ++ mids)

/-- Specification of when mid-training evaluations fire: walking the
remaining batch indices with current global step count `t`, batch `i`
(processed at step `t + 1`) fires one exactly when
`i % report_interval = report_interval - 1` and
`(t + 1) % (10 * report_interval) = 0`.  Returns the (step, batch index)
pairs in order. -/
def midIdxSpec (cfg : Config) : List ℕ → ℕ → List (ℕ × ℕ)
  | [], _ => []
  | i :: is, t =>
    (if i % cfg.report_interval = cfg.report_interval - 1 ∧
        (t + 1) % (10 * cfg.report_interval) = 0
     then [(t + 1, i)] else []) ++ midIdxSpec cfg is (t + 1)

/-- `Trainer.train` (lines 221-289): sets the model's teacher-forcing ratio
to the stored `self.tfr`, loops over the batches, and returns the mean
per-batch loss.  `none` models the `ZeroDivisionError` of line 289 when the
training iterator is empty. -/
def train (cfg : Config) (orc : Oracle) (s : FullState) :
    Option (FullState × ℚ × List MidEval) :=
  let s0 : FullState :=
    { s with model := { s.model with teacher_forcing_ratio := s.tfr } }
  match trainGo cfg orc (List.range cfg.nBatches) s0 with
  | none => none
  | some (s', tot, mids) =>
    if cfg.nBatches = 0 then none
    else some (s', tot / (cfg.nBatches : ℚ), mids)

/-- Trace record of one iteration of the epoch loop of `Trainer.run`:
either the loop broke by early stopping at this epoch (before training), or
the epoch ran.  Both record the memory bank in force after the burn-in
check; a `ran` record also keeps the teacher-forcing ratio used, the
mid-training evaluation records, the end-of-epoch validation result, whether
the end-of-epoch `update` saw a loss improvement, and its checkpoints. -/
inductive EpochRec where
  | stopped (epoch : ℕ) (postReset : EvalMemoryBank) : EpochRec
  | ran (epoch : ℕ) (postReset : EvalMemoryBank) (tfrUsed : ℚ)
      (mids : List MidEval) (endRes : EvalResult) (endLossImproved : Bool)
      (endCks : List Checkpoint) : EpochRec
deriving DecidableEq

/-- Epoch index of a trace record. -/
def EpochRec.epochIdx : EpochRec → ℕ
  | EpochRec.stopped e _ => e
  | EpochRec.ran e _ _ _ _ _ _ => e

/-- Memory bank after the burn-in check of that epoch. -/
def EpochRec.postResetOf : EpochRec → EvalMemoryBank
  | EpochRec.stopped _ b => b
  | EpochRec.ran _ b _ _ _ _ _ => b

/-- Teacher-forcing ratio used for the epoch, when training ran. -/
def EpochRec.tfrUsedOf : EpochRec → Option ℚ
  | EpochRec.stopped _ _ => none
  | EpochRec.ran _ _ t _ _ _ _ => some t

/-- Whether the epoch's training pass ran. -/
def EpochRec.isRan : EpochRec → Bool
  | EpochRec.stopped _ _ => false
  | EpochRec.ran _ _ _ _ _ _ _ => true

/-- Loss-improvement flags of the `update` calls made during this epoch, in
call order: the mid-training ones, then the end-of-epoch one. -/
def EpochRec.lossFlags : EpochRec → List Bool
  | EpochRec.stopped _ _ => []
  | EpochRec.ran _ _ _ mids _ imp _ => mids.map MidEval.lossImproved ++ [imp]

/-- Number of training passes run in a trace. -/
def countRan (trace : List EpochRec) : ℕ :=
  (trace.filter EpochRec.isRan).length

/-- Loss-improvement flags of all `update` calls of a trace, in call order. -/
def updateFlags (trace : List EpochRec) : List Bool :=
  (trace.map EpochRec.lossFlags).flatten

/-- Global steps at which mid-training evaluations fired, in order. -/
def midStepsOfTrace (trace : List EpochRec) : List ℕ :=
  (trace.map (fun rec =>
    match rec with
    | EpochRec.stopped _ _ => []
    | EpochRec.ran _ _ _ mids _ _ _ => mids.map MidEval.step)).flatten

/-- The start of one iteration of the epoch loop of `Trainer.run`: record the
epoch counter (line 104) and, within the burn-in phase, renew the evaluation
records (lines 106-111). -/
def epochStartState (cfg : Config) (burning : ℤ) (e : ℕ) (s : FullState) :
    FullState :=
  let s0 : FullState := { s with n_epoch := e }
  if (e : ℤ) ≤ burning then { s0 with emb := burnResetEMB cfg s0.emb } else s0

/-- The epoch loop of `Trainer.run` (lines 101-138), fuelled by the number of
remaining epochs, starting at epoch `e`.  Returns the final state and the
trace.  `none` models an exception escaping the loop body (the code catches
only `KeyboardInterrupt`). -/
def runAux (cfg : Config) (orc : Oracle) (burning : ℤ) :
    ℕ → ℕ → FullState → Option (FullState × List EpochRec)
  | 0, _, s => some (s, [])
  | fuel + 1, e, s =>
    let sR : FullState := epochStartState cfg burning e s
    if sR.emb.early_stopping_patience = 0 then
      some (sR, [EpochRec.stopped e sR.emb])
    else
      let sT : FullState := { sR with tfr := tfrOfEpoch e }
      match train cfg orc sT with
      | none => none
      | some (s1, _trainLoss, mids) =>
        match callEvaluate cfg orc false s1 with
        | none => none
        | some (vres, s2) =>
          let imp := QInf.leVal vres.loss s2.emb.best_valid_loss
          let p := applyUpdates cfg s2 vres
          match runAux cfg orc burning fuel (e + 1) p.1 with
          | none => none
          | some (sf, restTrace) =>
            some (sf,
              EpochRec.ran e sR.emb sT.tfr mids vres imp p.2 :: restTrace)

/-- `Trainer.run(burning_epoch)`: the epoch loop from epoch 0 with
`total_epochs` iterations, starting from the post-`__init__` state. -/
def runT (cfg : Config) (orc : Oracle) (burning : ℤ) :
    Option (FullState × List EpochRec) :=
  runAux cfg orc burning cfg.total_epochs 0 (initState cfg)

/-- A vocabulary sending every index to a fixed token (never `<eos>`). -/
def constItos : ℕ → String := fun _ => "x"

/-- Vocabulary for the exact-match example: indices 0-4 decode to
`a`, `b`, `<eos>`, `c`, `d`. -/
def itosABC : ℕ → String := fun n =>
  if n = 0 then "a" else if n = 1 then "b"
  else if n = 2 then "<eos>" else if n = 3 then "c" else "d"

/-- A small configuration template for concrete examples. -/
def sampleConfig (crit : Criterion) (esp : ℤ) : Config :=
  { valid_criterion := crit
    early_stopping_patience := esp
    total_epochs := 5
    report_interval := 1
    nBatches := 1
    nValidExamples := 1
    nTestExamples := 1
    taskIsMulti := false
    itos := constItos
    itosAux := constItos
    initModelTfr := 0 }

/-- A sample memory bank with finite best loss 3 and best accuracy 1/2. -/
def sampleEMB : EvalMemoryBank :=
  { best_valid_loss := QInf.val 3
    acc_valid_loss := QInf.val 3
    best_valid_acc := 1/2
    best_valid_epoch := 0
    best_train_step := 0
    early_stopping_patience := 2
    best_valid_loss_aux := QInf.inf
    best_valid_acc_aux := -1 }

/-- A sample trainer state built on `sampleEMB`. -/
def sampleState : FullState :=
  { emb := sampleEMB
    n_epoch := 4
    n_steps := 7
    tfr := 1/2
    model := { teacher_forcing_ratio := 1/2 }
    evalCount := 0 }

/-- An oracle whose evaluations always see one batch of loss 1 and whose
training losses are 0. -/
def constOracle : Oracle :=
  { trainLoss := fun _ => 0
    evalData := fun _ => [⟨[], [], [], [], 1⟩] }

/-- Configuration of the concrete early-stopping scenario: patience 2,
10 epochs of 10 batches, report interval 1 (so a mid-training evaluation
fires at every multiple of 10 steps, once per epoch). -/
def c5Config : Config :=
  { sampleConfig Criterion.LOSS 2 with total_epochs := 10, nBatches := 10 }

/-- Validation losses of the early-stopping scenario, by evaluation index:
5, _, 1, 1/2 then 2 forever — the first three `update` calls improve, all
later ones do not. -/
def c5Loss : ℕ → ℚ := fun k =>
  if k = 0 then 5 else if k = 2 then 1 else if k = 3 then 1/2 else 2

/-- Oracle of the concrete early-stopping scenario. -/
def c5Oracle : Oracle :=
  { trainLoss := fun _ => 0
    evalData := fun k => [⟨[], [], [], [], c5Loss k⟩] }

/-- Configuration of the mid-training-evaluation counterexample: report
interval 2, 14 epochs of 3 batches each, so the per-epoch batch index
drifts out of phase with the global step count. -/
def c7Config : Config :=
  { sampleConfig Criterion.LOSS 2 with
      total_epochs := 14, report_interval := 2, nBatches := 3 }

/-- Configuration whose validation dataset has zero examples. -/
def c8Config : Config :=
  { sampleConfig Criterion.LOSS 2 with nValidExamples := 0 }

/-- Patience is inside `[0, early_stopping_patience]`. -/
def PatInRange (cfg : Config) (emb : EvalMemoryBank) : Prop :=
  0 ≤ emb.early_stopping_patience ∧
  emb.early_stopping_patience ≤ cfg.early_stopping_patience

/-- Configuration with a patience budget of 0. -/
def p0Config : Config := sampleConfig Criterion.LOSS 0

/-- State at the start of epoch 0 of a `p0Config` run with burn-in epoch 0:
the burn-in reset leaves patience at its configured maximum, 0. -/
def burnStopState : FullState :=
  epochStartState p0Config 0 0 (initState p0Config)

/-! ### Helper lemmas about single operations -/

theorem update_frame (cfg : Config) (s : FullState) (l a : ℚ) :
    (update cfg s l a).1.n_epoch = s.n_epoch ∧
    (update cfg s l a).1.n_steps = s.n_steps ∧
    (update cfg s l a).1.tfr = s.tfr ∧
    (update cfg s l a).1.model = s.model ∧
    (update cfg s l a).1.evalCount = s.evalCount :=
  ⟨rfl, rfl, rfl, rfl, rfl⟩

theorem accBranch_frame (cfg : Config) (emb : EvalMemoryBank)
    (l a : ℚ) (e n : ℕ) :
    (accBranch cfg emb l a e n).1.best_valid_loss = emb.best_valid_loss ∧
    (accBranch cfg emb l a e n).1.early_stopping_patience =
      emb.early_stopping_patience ∧
    (accBranch cfg emb l a e n).1.best_valid_acc_aux =
      emb.best_valid_acc_aux ∧
    (accBranch cfg emb l a e n).1.best_valid_loss_aux =
      emb.best_valid_loss_aux := by
  unfold accBranch
  split <;> exact ⟨rfl, rfl, rfl, rfl⟩

theorem lossBranch_frame (cfg : Config) (emb : EvalMemoryBank) (l : ℚ) :
    (lossBranch cfg emb l).1.best_valid_acc = emb.best_valid_acc ∧
    (lossBranch cfg emb l).1.acc_valid_loss = emb.acc_valid_loss ∧
    (lossBranch cfg emb l).1.best_valid_epoch = emb.best_valid_epoch ∧
    (lossBranch cfg emb l).1.best_train_step = emb.best_train_step ∧
    (lossBranch cfg emb l).1.best_valid_acc_aux = emb.best_valid_acc_aux ∧
    (lossBranch cfg emb l).1.best_valid_loss_aux = emb.best_valid_loss_aux := by
  unfold lossBranch
  split <;> exact ⟨rfl, rfl, rfl, rfl, rfl, rfl⟩

theorem update_emb_eq (cfg : Config) (s : FullState) (l a : ℚ) :
    (update cfg s l a).1.emb =
      (accBranch cfg (lossBranch cfg s.emb l).1 l a s.n_epoch s.n_steps).1 :=
  rfl

theorem update_accAux (cfg : Config) (s : FullState) (l a : ℚ) :
    (update cfg s l a).1.emb.best_valid_acc_aux = s.emb.best_valid_acc_aux := by
  rw [update_emb_eq,
    (accBranch_frame cfg (lossBranch cfg s.emb l).1 l a s.n_epoch s.n_steps).2.2.1,
    (lossBranch_frame cfg s.emb l).2.2.2.2.1]

theorem lossBranch_patience_improving (cfg : Config) (emb : EvalMemoryBank)
    (l : ℚ) (h : QInf.leVal l emb.best_valid_loss = true) :
    (lossBranch cfg emb l).1.early_stopping_patience =
      cfg.early_stopping_patience := by
  unfold lossBranch
  rw [if_pos h]

theorem lossBranch_patience_drop (cfg : Config) (emb : EvalMemoryBank)
    (l : ℚ) (h : QInf.leVal l emb.best_valid_loss = false) :
    (lossBranch cfg emb l).1.early_stopping_patience =
      max (emb.early_stopping_patience - 1) 0 := by
  unfold lossBranch
  rw [if_neg (by simp [h])]

theorem update_patience_improving (cfg : Config) (s : FullState) (l a : ℚ)
    (h : QInf.leVal l s.emb.best_valid_loss = true) :
    (update cfg s l a).1.emb.early_stopping_patience =
      cfg.early_stopping_patience := by
  rw [update_emb_eq,
    (accBranch_frame cfg (lossBranch cfg s.emb l).1 l a s.n_epoch s.n_steps).2.1,
    lossBranch_patience_improving cfg s.emb l h]

theorem update_patience_drop (cfg : Config) (s : FullState) (l a : ℚ)
    (h : QInf.leVal l s.emb.best_valid_loss = false) :
    (update cfg s l a).1.emb.early_stopping_patience =
      max (s.emb.early_stopping_patience - 1) 0 := by
  rw [update_emb_eq,
    (accBranch_frame cfg (lossBranch cfg s.emb l).1 l a s.n_epoch s.n_steps).2.1,
    lossBranch_patience_drop cfg s.emb l h]

theorem update_patience_range (cfg : Config) (s : FullState) (l a : ℚ)
    (h0 : 0 ≤ cfg.early_stopping_patience)
    (h1 : PatInRange cfg s.emb) :
    PatInRange cfg (update cfg s l a).1.emb := by
  obtain ⟨ha, hb⟩ := h1
  cases hle : QInf.leVal l s.emb.best_valid_loss with
  | false =>
    rw [PatInRange, update_patience_drop cfg s l a hle]
    omega
  | true =>
    rw [PatInRange, update_patience_improving cfg s l a hle]
    omega

theorem evaluate_model_tfr (cfg : Config) (tfr : ℚ) (m : ModelState)
    (isTest : Bool) (batches : List EvalBatch) (r : EvalResult)
    (m2 : ModelState) (h : evaluate cfg tfr m isTest batches = some (r, m2)) :
    m2.teacher_forcing_ratio = tfr := by
  simp only [evaluate] at h
  by_cases hb : batches.length = 0
  · rw [if_pos hb] at h
    simp at h
  · rw [if_neg hb] at h
    by_cases hn : (if isTest then cfg.nTestExamples else cfg.nValidExamples) = 0
    · rw [if_pos hn] at h
      simp at h
    · rw [if_neg hn] at h
      injection h with h1
      injection h1 with h2 h3
      rw [← h3]
      rfl

theorem callEvaluate_state (cfg : Config) (orc : Oracle) (isTest : Bool)
    (s : FullState) (r : EvalResult) (s2 : FullState)
    (h : callEvaluate cfg orc isTest s = some (r, s2)) :
    s2.emb = s.emb ∧ s2.n_epoch = s.n_epoch ∧ s2.n_steps = s.n_steps ∧
    s2.tfr = s.tfr ∧ s2.model.teacher_forcing_ratio = s.tfr ∧
    s2.evalCount = s.evalCount + 1 := by
  simp only [callEvaluate] at h
  cases hev : evaluate cfg s.tfr s.model isTest (orc.evalData s.evalCount) with
  | none => rw [hev] at h; simp at h
  | some rm =>
    rw [hev] at h
    obtain ⟨r1, m1⟩ := rm
    have hm := evaluate_model_tfr cfg s.tfr s.model isTest _ r1 m1 hev
    injection h with h1
    injection h1 with hr hs
    subst hr
    subst hs
    exact ⟨rfl, rfl, rfl, rfl, hm, rfl⟩

theorem applyUpdates_fst (cfg : Config) (s : FullState) (vres : EvalResult) :
    (applyUpdates cfg s vres).1 = (update cfg s vres.loss vres.acc).1 := by
  unfold applyUpdates
  cases cfg.taskIsMulti <;> rfl

theorem applyUpdates_snd (cfg : Config) (s : FullState) (vres : EvalResult) :
    (applyUpdates cfg s vres).2 = (update cfg s vres.loss vres.acc).2 :=
  rfl

theorem trainBatch_spec (cfg : Config) (orc : Oracle) (i : ℕ)
    (s s1 : FullState) (recs : List MidEval)
    (h : trainBatch cfg orc i s = some (s1, recs)) :
    s1.n_steps = s.n_steps + 1 ∧
    s1.evalCount = s.evalCount + 2 * recs.length ∧
    recs.map (fun m => (m.step, m.batchIdx)) =
      (if i % cfg.report_interval = cfg.report_interval - 1 ∧
          (s.n_steps + 1) % (10 * cfg.report_interval) = 0
       then [(s.n_steps + 1, i)] else []) ∧
    (∀ m ∈ recs, m.schedMetric = m.validRes.acc) ∧
    s1.emb.best_valid_acc_aux = s.emb.best_valid_acc_aux ∧
    (0 ≤ cfg.early_stopping_patience → PatInRange cfg s.emb →
      PatInRange cfg s1.emb) := by
  simp only [trainBatch] at h
  by_cases hc1 : i % cfg.report_interval = cfg.report_interval - 1
  · rw [if_pos hc1] at h
    by_cases hc2 : (s.n_steps + 1) % (10 * cfg.report_interval) = 0
    · rw [if_pos hc2] at h
      cases hev1 : callEvaluate cfg orc false { s with n_steps := s.n_steps + 1 } with
      | none => rw [hev1] at h; simp at h
      | some p1 =>
        obtain ⟨vres, s2⟩ := p1
        rw [hev1] at h
        dsimp only at h
        cases hev2 : callEvaluate cfg orc true s2 with
        | none => rw [hev2] at h; simp at h
        | some p2 =>
          obtain ⟨tres, s3⟩ := p2
          rw [hev2] at h
          dsimp only at h
          injection h with h1
          injection h1 with hs hr
          subst hr
          obtain ⟨he1, hn1, hst1, ht1, hm1, hev1c⟩ :=
            callEvaluate_state cfg orc false _ vres s2 hev1
          obtain ⟨he2, hn2, hst2, ht2, hm2, hev2c⟩ :=
            callEvaluate_state cfg orc true s2 tres s3 hev2
          rw [applyUpdates_fst] at hs
          refine ⟨?_, ?_, ?_, ?_, ?_, ?_⟩
          · rw [← hs, (update_frame cfg s3 vres.loss vres.acc).2.1, hst2, hst1]
          · rw [← hs, (update_frame cfg s3 vres.loss vres.acc).2.2.2.2,
              hev2c, hev1c]
            show s.evalCount + 1 + 1 = s.evalCount + 2 * 1
            omega
          · rw [if_pos ⟨hc1, hc2⟩]
            rfl
          · intro m hm
            rw [List.mem_singleton] at hm
            subst hm
            rfl
          · rw [← hs, update_accAux, he2, he1]
          · intro h0 hp
            rw [← hs]
            refine update_patience_range cfg s3 vres.loss vres.acc h0 ?_
            rw [he2, he1]
            exact hp
    · rw [if_neg hc2] at h
      injection h with h1
      injection h1 with hs hr
      subst hs
      subst hr
      refine ⟨rfl, by simp, ?_, by simp, rfl, fun _ hp => hp⟩
      rw [if_neg]
      · simp
      · intro hand
        exact hc2 hand.2
  · rw [if_neg hc1] at h
    injection h with h1
    injection h1 with hs hr
    subst hs
    subst hr
    refine ⟨rfl, by simp, ?_, by simp, rfl, fun _ hp => hp⟩
    rw [if_neg]
    · simp
    · intro hand
      exact hc1 hand.1

theorem trainGo_spec (cfg : Config) (orc : Oracle) :
    ∀ (iList : List ℕ) (s s1 : FullState) (tot : ℚ) (mids : List MidEval),
      trainGo cfg orc iList s = some (s1, tot, mids) →
      s1.n_steps = s.n_steps + iList.length ∧
      s1.evalCount = s.evalCount + 2 * mids.length ∧
      mids.map (fun m => (m.step, m.batchIdx)) = midIdxSpec cfg iList s.n_steps ∧
      (∀ m ∈ mids, m.schedMetric = m.validRes.acc) ∧
      s1.emb.best_valid_acc_aux = s.emb.best_valid_acc_aux ∧
      (0 ≤ cfg.early_stopping_patience → PatInRange cfg s.emb →
        PatInRange cfg s1.emb) := by
  intro iList
  induction iList with
  | nil =>
    intro s s1 tot mids h
    simp only [trainGo] at h
    injection h with h1
    injection h1 with hs h2
    injection h2 with ht hm
    subst hs
    subst hm
    exact ⟨rfl, by simp, by simp [midIdxSpec], by simp, rfl, fun _ hp => hp⟩
  | cons i is ih =>
    intro s s1 tot mids h
    simp only [trainGo] at h
    cases hb : trainBatch cfg orc i s with
    | none => rw [hb] at h; simp at h
    | some p =>
      obtain ⟨sb, recs⟩ := p
      rw [hb] at h
      dsimp only at h
      cases hg : trainGo cfg orc is sb with
      | none => rw [hg] at h; simp at h
      | some q =>
        obtain ⟨s2, tot2, mids2⟩ := q
        rw [hg] at h
        dsimp only at h
        injection h with h1
        injection h1 with hs h2
        injection h2 with ht hm
        subst hs
        subst hm
        obtain ⟨hb1, hb2, hb3, hb4, hb5, hb6⟩ :=
          trainBatch_spec cfg orc i s sb recs hb
        obtain ⟨hg1, hg2, hg3, hg4, hg5, hg6⟩ := ih sb s2 tot2 mids2 hg
        refine ⟨?_, ?_, ?_, ?_, ?_, ?_⟩
        · rw [hg1, hb1, List.length_cons]
          omega
        · rw [hg2, hb2, List.length_append]
          omega
        · rw [List.map_append, hb3, hg3, hb1]
          simp only [midIdxSpec]
        · intro m hm
          rcases List.mem_append.mp hm with hmm | hmm
          · exact hb4 m hmm
          · exact hg4 m hmm
        · rw [hg5, hb5]
        · intro h0 hp
          exact hg6 h0 (hb6 h0 hp)

theorem train_spec (cfg : Config) (orc : Oracle) (s s1 : FullState)
    (avg : ℚ) (mids : List MidEval)
    (h : train cfg orc s = some (s1, avg, mids)) :
    s1.n_steps = s.n_steps + cfg.nBatches ∧
    s1.evalCount = s.evalCount + 2 * mids.length ∧
    mids.map (fun m => (m.step, m.batchIdx)) =
      midIdxSpec cfg (List.range cfg.nBatches) s.n_steps ∧
    (∀ m ∈ mids, m.schedMetric = m.validRes.acc) ∧
    s1.emb.best_valid_acc_aux = s.emb.best_valid_acc_aux ∧
    (0 ≤ cfg.early_stopping_patience → PatInRange cfg s.emb →
      PatInRange cfg s1.emb) := by
  simp only [train] at h
  cases hg : trainGo cfg orc (List.range cfg.nBatches)
      { s with model := { s.model with teacher_forcing_ratio := s.tfr } } with
  | none => rw [hg] at h; simp at h
  | some q =>
    obtain ⟨s2, tot, mids2⟩ := q
    rw [hg] at h
    dsimp only at h
    by_cases hn : cfg.nBatches = 0
    · rw [if_pos hn] at h
      simp at h
    · rw [if_neg hn] at h
      injection h with h1
      injection h1 with hs h2
      injection h2 with ht hm
      subst hs
      subst hm
      obtain ⟨g1, g2, g3, g4, g5, g6⟩ :=
        trainGo_spec cfg orc (List.range cfg.nBatches) _ _ _ _ hg
      refine ⟨?_, g2, ?_, g4, g5, g6⟩
      · rw [g1, List.length_range]
      · exact g3

theorem midIdxSpec_range_mem (cfg : Config) :
    ∀ (m a t n i : ℕ),
      ((n, i) ∈ midIdxSpec cfg (List.range' a m) t ↔
        ∃ k, k < m ∧ i = a + k ∧ n = t + k + 1 ∧
          i % cfg.report_interval = cfg.report_interval - 1 ∧
          n % (10 * cfg.report_interval) = 0) := by
  intro m
  induction m with
  | zero =>
    intro a t n i
    simp [midIdxSpec]
  | succ m ih =>
    intro a t n i
    rw [List.range'_succ]
    simp only [midIdxSpec, List.mem_append]
    constructor
    · rintro (hmem | hmem)
      · split at hmem
        case isTrue hcond =>
          rw [List.mem_singleton] at hmem
          injection hmem with h1 h2
          refine ⟨0, by omega, by omega, by omega, ?_, ?_⟩
          · rw [h2]
            exact hcond.1
          · rw [h1]
            exact hcond.2
        case isFalse hcond => simp at hmem
      · obtain ⟨k, hk, hi, hn, hmod1, hmod2⟩ := (ih (a + 1) (t + 1) n i).mp hmem
        exact ⟨k + 1, by omega, by omega, by omega, hmod1, hmod2⟩
    · rintro ⟨k, hk, hi, hn, hmod1, hmod2⟩
      cases k with
      | zero =>
        left
        have hia : i = a := by omega
        have hnt : n = t + 1 := by omega
        subst hia
        subst hnt
        rw [if_pos ⟨hmod1, hmod2⟩]
        exact List.mem_singleton.mpr rfl
      | succ k =>
        right
        exact (ih (a + 1) (t + 1) n i).mpr
          ⟨k, by omega, by omega, by omega, hmod1, hmod2⟩

theorem epochStartState_emb (cfg : Config) (burning : ℤ) (e : ℕ)
    (s : FullState) :
    (epochStartState cfg burning e s).emb =
      (if (e : ℤ) ≤ burning then burnResetEMB cfg s.emb else s.emb) := by
  unfold epochStartState
  split <;> rfl

theorem runAux_spec (cfg : Config) (orc : Oracle) (burning : ℤ) :
    ∀ (fuel e : ℕ) (s : FullState) (out : FullState × List EpochRec),
      runAux cfg orc burning fuel e s = some out →
      out.1.emb.best_valid_acc_aux = s.emb.best_valid_acc_aux ∧
      (0 ≤ cfg.early_stopping_patience → PatInRange cfg s.emb →
        PatInRange cfg out.1.emb ∧
        ∀ rec ∈ out.2, PatInRange cfg rec.postResetOf) ∧
      (∀ rec ∈ out.2, ∀ q, rec.tfrUsedOf = some q →
        q = tfrOfEpoch rec.epochIdx) ∧
      (∀ rec ∈ out.2, (rec.epochIdx : ℤ) ≤ burning →
        rec.postResetOf.best_valid_loss = QInf.inf ∧
        rec.postResetOf.best_valid_acc = 0 ∧
        rec.postResetOf.early_stopping_patience =
          cfg.early_stopping_patience) := by
  intro fuel
  induction fuel with
  | zero =>
    intro e s out h
    simp only [runAux] at h
    injection h with h1
    subst h1
    exact ⟨rfl, fun _ hp => ⟨hp, by simp⟩, by simp, by simp⟩
  | succ fuel ih =>
    intro e s out h
    simp only [runAux] at h
    have hemb : (epochStartState cfg burning e s).emb.best_valid_acc_aux
        = s.emb.best_valid_acc_aux := by
      rw [epochStartState_emb]
      split <;> rfl
    have hpatR : 0 ≤ cfg.early_stopping_patience → PatInRange cfg s.emb →
        PatInRange cfg (epochStartState cfg burning e s).emb := by
      intro h0 hp
      rw [epochStartState_emb]
      split
      · exact ⟨h0, le_refl _⟩
      · exact hp
    by_cases hstop :
      (epochStartState cfg burning e s).emb.early_stopping_patience = 0
    · rw [if_pos hstop] at h
      injection h with h1
      subst h1
      refine ⟨hemb, ?_, ?_, ?_⟩
      · intro h0 hp
        refine ⟨hpatR h0 hp, ?_⟩
        intro rec hrec
        rw [List.mem_singleton] at hrec
        subst hrec
        exact hpatR h0 hp
      · intro rec hrec q hq
        rw [List.mem_singleton] at hrec
        subst hrec
        simp [EpochRec.tfrUsedOf] at hq
      · intro rec hrec hble
        rw [List.mem_singleton] at hrec
        subst hrec
        simp only [EpochRec.epochIdx] at hble
        simp only [EpochRec.postResetOf]
        rw [epochStartState_emb, if_pos hble]
        exact ⟨rfl, rfl, rfl⟩
    · rw [if_neg hstop] at h
      cases htr : train cfg orc
          { epochStartState cfg burning e s with tfr := tfrOfEpoch e } with
      | none => rw [htr] at h; simp at h
      | some q1 =>
        obtain ⟨s1, tl, mids⟩ := q1
        rw [htr] at h
        dsimp only at h
        cases hev : callEvaluate cfg orc false s1 with
        | none => rw [hev] at h; simp at h
        | some q2 =>
          obtain ⟨vres, s2⟩ := q2
          rw [hev] at h
          dsimp only at h
          cases hrun : runAux cfg orc burning fuel (e + 1)
              (applyUpdates cfg s2 vres).1 with
          | none => rw [hrun] at h; simp at h
          | some q3 =>
            obtain ⟨sf, rest⟩ := q3
            rw [hrun] at h
            dsimp only at h
            injection h with h1
            subst h1
            obtain ⟨i1, i2, i3, i4⟩ := ih (e + 1) _ _ hrun
            obtain ⟨t1, t2, t3, t4, t5, t6⟩ := train_spec cfg orc _ _ _ _ htr
            obtain ⟨c1, c2, c3, c4, c5, c6⟩ :=
              callEvaluate_state cfg orc false s1 vres s2 hev
            have haux : (applyUpdates cfg s2 vres).1.emb.best_valid_acc_aux
                = s.emb.best_valid_acc_aux := by
              rw [applyUpdates_fst, update_accAux, c1, t5]
              exact hemb
            refine ⟨?_, ?_, ?_, ?_⟩
            · rw [i1]
              exact haux
            · intro h0 hp
              have hpR := hpatR h0 hp
              have hp1 := t6 h0 hpR
              have hp2 : PatInRange cfg s2.emb := by
                rw [c1]
                exact hp1
              have hp4 : PatInRange cfg (applyUpdates cfg s2 vres).1.emb := by
                rw [applyUpdates_fst]
                exact update_patience_range cfg s2 _ _ h0 hp2
              obtain ⟨if1, if2⟩ := i2 h0 hp4
              refine ⟨if1, ?_⟩
              intro rec hrec
              rcases List.mem_cons.mp hrec with hrec | hrec
              · subst hrec
                exact hpR
              · exact if2 rec hrec
            · intro rec hrec q hq
              rcases List.mem_cons.mp hrec with hrec | hrec
              · subst hrec
                simp only [EpochRec.tfrUsedOf] at hq
                injection hq with hq
                subst hq
                rfl
              · exact i3 rec hrec q hq
            · intro rec hrec hble
              rcases List.mem_cons.mp hrec with hrec | hrec
              · subst hrec
                simp only [EpochRec.epochIdx] at hble
                simp only [EpochRec.postResetOf]
                rw [epochStartState_emb, if_pos hble]
                exact ⟨rfl, rfl, rfl⟩
              · exact i4 rec hrec hble

theorem lossBranch_improving (cfg : Config) (emb : EvalMemoryBank) (l : ℚ)
    (h : QInf.leVal l emb.best_valid_loss = true) :
    (lossBranch cfg emb l).1.best_valid_loss = QInf.val l := by
  unfold lossBranch
  rw [if_pos h]

theorem accBranch_improving (cfg : Config) (emb : EvalMemoryBank)
    (l a : ℚ) (e n : ℕ) (h : a ≥ emb.best_valid_acc) :
    (accBranch cfg emb l a e n).1.best_valid_acc = a ∧
    (accBranch cfg emb l a e n).1.acc_valid_loss = QInf.val l ∧
    (accBranch cfg emb l a e n).1.best_valid_epoch = (e : ℤ) ∧
    (accBranch cfg emb l a e n).1.best_train_step = (n : ℤ) := by
  unfold accBranch
  rw [if_pos h]
  exact ⟨rfl, rfl, rfl, rfl⟩

theorem lossBranch_cks (cfg : Config) (emb : EvalMemoryBank) (l : ℚ) :
    (lossBranch cfg emb l).2 =
      if QInf.leVal l emb.best_valid_loss then
        (if cfg.valid_criterion = Criterion.LOSS then [Checkpoint.lossCkpt]
         else [])
      else [] := by
  unfold lossBranch
  split <;> rfl

theorem accBranch_cks (cfg : Config) (emb : EvalMemoryBank)
    (l a : ℚ) (e n : ℕ) :
    (accBranch cfg emb l a e n).2 =
      if a ≥ emb.best_valid_acc then
        (if cfg.valid_criterion = Criterion.ACC then [Checkpoint.accCkpt]
         else [])
      else [] := by
  unfold accBranch
  split <;> rfl

theorem update_cks (cfg : Config) (s : FullState) (l a : ℚ) :
    (update cfg s l a).2 =
      (if QInf.leVal l s.emb.best_valid_loss then
        (if cfg.valid_criterion = Criterion.LOSS then [Checkpoint.lossCkpt]
         else [])
       else []) ++
      (if a ≥ s.emb.best_valid_acc then
        (if cfg.valid_criterion = Criterion.ACC then [Checkpoint.accCkpt]
         else [])
       else []) := by
  show (lossBranch cfg s.emb l).2 ++
      (accBranch cfg (lossBranch cfg s.emb l).1 l a s.n_epoch s.n_steps).2 = _
  rw [lossBranch_cks, accBranch_cks, (lossBranch_frame cfg s.emb l).1]

theorem update_cks_len (cfg : Config) (s : FullState) (l a : ℚ) :
    ((update cfg s l a).2).length ≤ 1 := by
  rw [update_cks]
  by_cases hl : QInf.leVal l s.emb.best_valid_loss = true <;>
    by_cases ha : a ≥ s.emb.best_valid_acc <;>
      cases cfg.valid_criterion <;>
        simp [hl, ha]

theorem truncAtEos_append_eos (itos : ℕ → String) (e : ℕ)
    (he : itos e = "<eos>") : ∀ (xs rest : List ℕ),
    truncAtEos itos (xs ++ e :: rest) = truncAtEos itos xs := by
  intro xs
  induction xs with
  | nil =>
    intro rest
    simp [truncAtEos, he]
  | cons x xs ih =>
    intro rest
    simp only [List.cons_append, truncAtEos]
    split
    · rfl
    · simp only [List.append_eq]
      rw [ih rest]

theorem matching_eq_filter (itos : ℕ → String) :
    ∀ (pred ref : List (List ℕ)),
      matching itos pred ref =
        ((pred.zip ref).filter
          (fun pr => decide (decodeRow itos pr.1 = decodeRow itos pr.2))).length := by
  intro pred
  induction pred with
  | nil =>
    intro ref
    simp [matching]
  | cons p ps ih =>
    intro ref
    cases ref with
    | nil => simp [matching]
    | cons r rs =>
      simp only [matching, List.zip_cons_cons, List.filter_cons]
      by_cases hd : decodeRow itos p = decodeRow itos r
      · simp [hd, ih rs, Nat.add_comm]
      · simp [hd, ih rs]

/-! ### Claim theorems -/

/-- C1 (amended): on every `update(valid_loss, valid_acc)` call, if
`valid_loss <= best_valid_loss` (ties improve) then `best_valid_loss` is set
to `valid_loss`, patience is reset to the configured maximum, and the
loss-checkpoint is written exactly when the criterion is LOSS; independently,
if `valid_acc >= best_valid_acc` (ties improve) then `best_valid_acc`, the
loss-at-best-acc, the best epoch and the best step are updated, and the
accuracy-checkpoint is written exactly when the criterion is ACC.  Both
branches are evaluated on every call; however, since the two `torch.save`
calls are guarded by the same criterion value, a single call triggers zero
or one checkpoint write — never two (both write counts occur). -/
theorem claim1_update_policy (cfg : Config) (s : FullState) (l a : ℚ) :
    (QInf.leVal l s.emb.best_valid_loss = true →
      (update cfg s l a).1.emb.best_valid_loss = QInf.val l ∧
      (update cfg s l a).1.emb.early_stopping_patience =
        cfg.early_stopping_patience ∧
      (Checkpoint.lossCkpt ∈ (update cfg s l a).2 ↔
        cfg.valid_criterion = Criterion.LOSS)) ∧
    (a ≥ s.emb.best_valid_acc →
      (update cfg s l a).1.emb.best_valid_acc = a ∧
      (update cfg s l a).1.emb.acc_valid_loss = QInf.val l ∧
      (update cfg s l a).1.emb.best_valid_epoch = (s.n_epoch : ℤ) ∧
      (update cfg s l a).1.emb.best_train_step = (s.n_steps : ℤ) ∧
      (Checkpoint.accCkpt ∈ (update cfg s l a).2 ↔
        cfg.valid_criterion = Criterion.ACC)) ∧
    ((update cfg s l a).2.length ≤ 1) ∧
    ((update (sampleConfig Criterion.LOSS 2) sampleState 4 0).2.length = 0) ∧
    ((update (sampleConfig Criterion.LOSS 2) sampleState 1 1).2.length = 1) := by
  refine ⟨?_, ?_, update_cks_len cfg s l a, by decide, by decide⟩
  · intro h
    refine ⟨?_, update_patience_improving cfg s l a h, ?_⟩
    · rw [update_emb_eq,
        (accBranch_frame cfg (lossBranch cfg s.emb l).1 l a s.n_epoch s.n_steps).1,
        lossBranch_improving cfg s.emb l h]
    · rw [update_cks, if_pos h]
      by_cases ha : a ≥ s.emb.best_valid_acc <;>
        cases hc : cfg.valid_criterion <;> simp [ha, hc]
  · intro h
    have h2 : a ≥ (lossBranch cfg s.emb l).1.best_valid_acc := by
      rw [(lossBranch_frame cfg s.emb l).1]
      exact h
    obtain ⟨b1, b2, b3, b4⟩ :=
      accBranch_improving cfg (lossBranch cfg s.emb l).1 l a s.n_epoch
        s.n_steps h2
    refine ⟨?_, ?_, ?_, ?_, ?_⟩
    · rw [update_emb_eq, b1]
    · rw [update_emb_eq, b2]
    · rw [update_emb_eq, b3]
    · rw [update_emb_eq, b4]
    · rw [update_cks, if_pos h]
      by_cases hl : QInf.leVal l s.emb.best_valid_loss = true <;>
        cases hc : cfg.valid_criterion <;> simp [hl, hc]

/-- C1 counterexample: the claim "a single call can trigger zero, one, or
two checkpoint writes" fails at "two": no input to `update` can produce two
checkpoint writes, because the loss write requires criterion LOSS and the
accuracy write requires criterion ACC. -/
theorem claim1_counterexample :
    ¬ ∃ (cfg : Config) (s : FullState) (l a : ℚ),
        ((update cfg s l a).2).length = 2 := by
  rintro ⟨cfg, s, l, a, h⟩
  have h2 := update_cks_len cfg s l a
  omega

/-- C1 witness: concrete instantiation of both branches of
`claim1_update_policy` at an improving loss and an improving accuracy. -/
theorem claim1_witness :
    (QInf.leVal 1 sampleState.emb.best_valid_loss = true ∧
      (1 : ℚ) ≥ sampleState.emb.best_valid_acc) ∧
    (update (sampleConfig Criterion.LOSS 2) sampleState 1 1).1.emb.best_valid_loss
        = QInf.val 1 ∧
    (update (sampleConfig Criterion.LOSS 2) sampleState 1 1).1.emb.early_stopping_patience
        = (sampleConfig Criterion.LOSS 2).early_stopping_patience ∧
    (update (sampleConfig Criterion.LOSS 2) sampleState 1 1).1.emb.best_valid_acc
        = 1 ∧
    (Checkpoint.lossCkpt ∈ (update (sampleConfig Criterion.LOSS 2) sampleState 1 1).2 ↔
      (sampleConfig Criterion.LOSS 2).valid_criterion = Criterion.LOSS) :=
  ⟨⟨by decide, by decide⟩,
    ((claim1_update_policy (sampleConfig Criterion.LOSS 2) sampleState 1 1).1
      (by decide)).1,
    ((claim1_update_policy (sampleConfig Criterion.LOSS 2) sampleState 1 1).1
      (by decide)).2.1,
    ((claim1_update_policy (sampleConfig Criterion.LOSS 2) sampleState 1 1).2.1
      (by decide)).1,
    ((claim1_update_policy (sampleConfig Criterion.LOSS 2) sampleState 1 1).1
      (by decide)).2.2⟩

/-- C2: the early-stopping patience counter stays in `[0, configured max]`
across every operation of the trainer: an improving update or a burn-in
reset sets it to exactly the configured maximum, a non-improving update
decrements it by 1 floored at 0, `update_aux` leaves it unchanged, and a
whole `run` keeps it (and every per-epoch snapshot of it) inside the
range. -/
theorem claim2_patience (cfg : Config) (s : FullState) (l a : ℚ) :
    (QInf.leVal l s.emb.best_valid_loss = true →
      (update cfg s l a).1.emb.early_stopping_patience =
        cfg.early_stopping_patience) ∧
    (QInf.leVal l s.emb.best_valid_loss = false →
      (update cfg s l a).1.emb.early_stopping_patience =
        max (s.emb.early_stopping_patience - 1) 0) ∧
    (burnResetEMB cfg s.emb).early_stopping_patience =
      cfg.early_stopping_patience ∧
    (update_aux s a).1.emb.early_stopping_patience =
      s.emb.early_stopping_patience ∧
    (0 ≤ cfg.early_stopping_patience →
      0 ≤ s.emb.early_stopping_patience →
      s.emb.early_stopping_patience ≤ cfg.early_stopping_patience →
      0 ≤ (update cfg s l a).1.emb.early_stopping_patience ∧
      (update cfg s l a).1.emb.early_stopping_patience ≤
        cfg.early_stopping_patience) ∧
    (∀ (orc : Oracle) (burning : ℤ) (out : FullState × List EpochRec),
      0 ≤ cfg.early_stopping_patience →
      runT cfg orc burning = some out →
      (0 ≤ out.1.emb.early_stopping_patience ∧
        out.1.emb.early_stopping_patience ≤ cfg.early_stopping_patience) ∧
      ∀ rec ∈ out.2,
        0 ≤ rec.postResetOf.early_stopping_patience ∧
        rec.postResetOf.early_stopping_patience ≤
          cfg.early_stopping_patience) := by
  refine ⟨update_patience_improving cfg s l a, update_patience_drop cfg s l a,
    rfl, rfl, ?_, ?_⟩
  · intro h0 h1 h2
    exact update_patience_range cfg s l a h0 ⟨h1, h2⟩
  · intro orc burning out h0 h
    have hspec := (runAux_spec cfg orc burning cfg.total_epochs 0
      (initState cfg) out h).2.1 h0 ⟨h0, le_refl _⟩
    exact ⟨hspec.1, hspec.2⟩

/-- C2 witness: concrete instantiation of `claim2_patience`: a
non-improving update at patience 2 drops it to 1, and a complete concrete
run ends with patience inside the range. -/
theorem claim2_witness :
    (QInf.leVal 4 sampleState.emb.best_valid_loss = false ∧
      (update (sampleConfig Criterion.LOSS 2) sampleState 4 0).1.emb.early_stopping_patience
        = max (sampleState.emb.early_stopping_patience - 1) 0) ∧
    (∃ out, runT c5Config c5Oracle 0 = some out ∧
      0 ≤ out.1.emb.early_stopping_patience ∧
      out.1.emb.early_stopping_patience ≤ c5Config.early_stopping_patience) := by
  refine ⟨⟨by decide,
    (claim2_patience (sampleConfig Criterion.LOSS 2) sampleState 4 0).2.1
      (by decide)⟩, ?_⟩
  cases hr : runT c5Config c5Oracle 0 with
  | none => exact absurd hr (by decide)
  | some out =>
    have h := (claim2_patience c5Config out.1 0 0).2.2.2.2.2 c5Oracle 0 out
      (by decide) hr
    exact ⟨out, rfl, h.1.1, h.1.2⟩

/-- C3: for every epoch `e` whose training pass runs, the teacher-forcing
ratio used equals `max(1 - (10 + 1.5*e)/50, 0.2)`; as a function of `e` this
value is monotonically non-increasing and bounded below by 0.2. -/
theorem claim3_tfr (cfg : Config) (orc : Oracle) (burning : ℤ)
    (fuel e0 : ℕ) (s : FullState) (out : FullState × List EpochRec)
    (h : runAux cfg orc burning fuel e0 s = some out) :
    (∀ rec ∈ out.2, ∀ q, rec.tfrUsedOf = some q →
      q = tfrOfEpoch rec.epochIdx) ∧
    (∀ e1 e2 : ℕ, e1 ≤ e2 → tfrOfEpoch e2 ≤ tfrOfEpoch e1) ∧
    (∀ e : ℕ, (0.2 : ℚ) ≤ tfrOfEpoch e) := by
  refine ⟨(runAux_spec cfg orc burning fuel e0 s out h).2.2.1, ?_, ?_⟩
  · intro e1 e2 hle
    unfold tfrOfEpoch
    apply max_le_max _ (le_refl _)
    have hc : (e1 : ℚ) ≤ (e2 : ℚ) := by exact_mod_cast hle
    linarith
  · intro e
    exact le_max_right _ _

/-- C3 witness: `claim3_tfr` instantiated at a concrete (zero-fuel) run:
the ratio is non-increasing from epoch 1 to 2 and at least 0.2 at
epoch 3. -/
theorem claim3_witness :
    runAux c5Config c5Oracle 0 0 0 (initState c5Config) =
      some (initState c5Config, []) ∧
    tfrOfEpoch 2 ≤ tfrOfEpoch 1 ∧ (0.2 : ℚ) ≤ tfrOfEpoch 3 :=
  ⟨by decide,
    (claim3_tfr c5Config c5Oracle 0 0 0 (initState c5Config)
      (initState c5Config, []) (by decide)).2.1 1 2 (by decide),
    (claim3_tfr c5Config c5Oracle 0 0 0 (initState c5Config)
      (initState c5Config, []) (by decide)).2.2 3⟩

/-- C4: for every epoch `e` processed by `run` with `e ≤ burning_epoch`,
the state in force after the burn-in reset of that epoch — i.e. before that
epoch's training and evaluation results are incorporated — has
`best_valid_loss = inf`, `best_valid_acc = 0` and patience equal to the
configured maximum, discarding any earlier evaluation history. -/
theorem claim4_burn_reset (cfg : Config) (orc : Oracle) (burning : ℤ)
    (fuel e0 : ℕ) (s : FullState) (out : FullState × List EpochRec)
    (h : runAux cfg orc burning fuel e0 s = some out)
    (rec : EpochRec) (hrec : rec ∈ out.2)
    (hb : (rec.epochIdx : ℤ) ≤ burning) :
    rec.postResetOf.best_valid_loss = QInf.inf ∧
    rec.postResetOf.best_valid_acc = 0 ∧
    rec.postResetOf.early_stopping_patience = cfg.early_stopping_patience :=
  (runAux_spec cfg orc burning fuel e0 s out h).2.2.2 rec hrec hb

/-- C4 witness: `claim4_burn_reset` at a concrete one-epoch run whose
epoch 0 is a burn-in epoch. -/
theorem claim4_witness :
    (runAux p0Config constOracle 0 1 0 (initState p0Config) =
        some (burnStopState, [EpochRec.stopped 0 burnStopState.emb]) ∧
      EpochRec.stopped 0 burnStopState.emb ∈
        [EpochRec.stopped 0 burnStopState.emb] ∧
      (((EpochRec.stopped 0 burnStopState.emb).epochIdx : ℤ) ≤ 0)) ∧
    ((EpochRec.stopped 0 burnStopState.emb).postResetOf.best_valid_loss =
        QInf.inf ∧
      (EpochRec.stopped 0 burnStopState.emb).postResetOf.best_valid_acc = 0 ∧
      (EpochRec.stopped 0 burnStopState.emb).postResetOf.early_stopping_patience =
        p0Config.early_stopping_patience) :=
  ⟨⟨by decide, by simp, by decide⟩,
    claim4_burn_reset p0Config constOracle 0 1 0 (initState p0Config)
      (burnStopState, [EpochRec.stopped 0 burnStopState.emb]) (by decide)
      (EpochRec.stopped 0 burnStopState.emb) (by simp) (by decide)⟩

/-- C5: if the epoch loop starts an epoch with patience equal to 0 (after
any burn-in reset for that epoch), it breaks immediately: the run returns
with a `stopped` record for that epoch and no training pass is started.
Concretely, with patience 2, burn-in epoch 0 and validation losses that
improve three times and then worsen, exactly three consecutive
non-improving `update` calls occur (at the end of epoch 1, at the
mid-training evaluation of epoch 2 at global step 30, and at the end of
epoch 2) and the loop halts having run only 3 training passes, i.e. before
the fourth epoch's training pass. -/
theorem claim5_early_stop (cfg : Config) (orc : Oracle) (burning : ℤ)
    (fuel e : ℕ) (s : FullState)
    (h : (epochStartState cfg burning e s).emb.early_stopping_patience = 0) :
    (runAux cfg orc burning (fuel + 1) e s =
      some (epochStartState cfg burning e s,
        [EpochRec.stopped e (epochStartState cfg burning e s).emb])) ∧
    ((runT c5Config c5Oracle 0).map
        (fun out => (countRan out.2, updateFlags out.2)) =
      some (3, [true, true, true, false, false, false])) := by
  constructor
  · simp only [runAux]
    rw [if_pos h]
  · decide

/-- C5 witness: `claim5_early_stop` at a run whose configured patience is
0, so the burn-in reset of epoch 0 leaves patience 0 and the loop stops
before any training. -/
theorem claim5_witness :
    burnStopState.emb.early_stopping_patience = 0 ∧
    runAux p0Config constOracle 0 5 0 (initState p0Config) =
      some (burnStopState, [EpochRec.stopped 0 burnStopState.emb]) :=
  ⟨by decide,
    (claim5_early_stop p0Config constOracle 0 4 0 (initState p0Config)
      (by decide)).1⟩

/-- C6: `matching` decodes each row pair independently (mapping indices
through the vocabulary, truncating at the first `<eos>`, joining into a
string) and counts exactly the rows whose two decoded strings are equal;
content after `<eos>` is ignored, so prediction `[a,b,<eos>,c]` matches
reference `[a,b,<eos>,d]`. -/
theorem claim6_matching (itos : ℕ → String) (pred ref : List (List ℕ)) :
    (matching itos pred ref =
      ((pred.zip ref).filter
        (fun pr => decide (decodeRow itos pr.1 = decodeRow itos pr.2))).length) ∧
    (∀ (e : ℕ) (xs rest : List ℕ), itos e = "<eos>" →
      decodeRow itos (xs ++ e :: rest) = decodeRow itos xs) ∧
    matching itosABC [[0, 1, 2, 3]] [[0, 1, 2, 4]] = 1 := by
  refine ⟨matching_eq_filter itos pred ref, ?_, by decide⟩
  intro e xs rest he
  unfold decodeRow
  rw [truncAtEos_append_eos itos e he xs rest]

/-- C6 witness: `claim6_matching` instantiated at the concrete vocabulary
`itosABC`: truncation drops everything after the `<eos>` index 2. -/
theorem claim6_witness :
    itosABC 2 = "<eos>" ∧
    decodeRow itosABC [0, 1, 2, 3] = decodeRow itosABC [0, 1] :=
  ⟨by decide,
    (claim6_matching itosABC [] []).2.1 2 [0, 1] [3] (by decide)⟩

/-- C7 (amended): during a training pass, a full validation evaluation and
a full test evaluation are run, the checkpoint policy is applied and the
scheduler is stepped on the validation accuracy exactly at the batches
whose within-epoch index `i` satisfies
`i % report_interval = report_interval - 1` AND whose global step count is
a multiple of `10 * report_interval`; both conditions together are also
sufficient.  (The claim's "every time the global step count reaches a
multiple of 10 * report_interval" drops the first condition and is false
when the per-epoch batch count is not a multiple of the report interval —
see the counterexample.)  Each fired record evaluates validation and test
(two oracle consultations) and steps the scheduler on the validation
accuracy. -/
theorem claim7_mid_evals (cfg : Config) (orc : Oracle) (s s1 : FullState)
    (avg : ℚ) (mids : List MidEval)
    (h : train cfg orc s = some (s1, avg, mids)) :
    (∀ m ∈ mids,
      m.batchIdx < cfg.nBatches ∧
      m.batchIdx % cfg.report_interval = cfg.report_interval - 1 ∧
      m.step = s.n_steps + m.batchIdx + 1 ∧
      m.step % (10 * cfg.report_interval) = 0 ∧
      m.schedMetric = m.validRes.acc) ∧
    (∀ i, i < cfg.nBatches →
      i % cfg.report_interval = cfg.report_interval - 1 →
      (s.n_steps + i + 1) % (10 * cfg.report_interval) = 0 →
      ∃ m ∈ mids, m.step = s.n_steps + i + 1 ∧ m.batchIdx = i) ∧
    s1.evalCount = s.evalCount + 2 * mids.length := by
  obtain ⟨t1, t2, t3, t4, t5, t6⟩ := train_spec cfg orc s s1 avg mids h
  have ht3 : mids.map (fun m => (m.step, m.batchIdx)) =
      midIdxSpec cfg (List.range' 0 cfg.nBatches) s.n_steps := by
    rw [t3, List.range_eq_range']
  refine ⟨?_, ?_, t2⟩
  · intro m hm
    have hmem : (m.step, m.batchIdx) ∈
        midIdxSpec cfg (List.range' 0 cfg.nBatches) s.n_steps := by
      rw [← ht3]
      exact List.mem_map_of_mem _ hm
    obtain ⟨k, hk, hik, hnk, hm1, hm2⟩ :=
      (midIdxSpec_range_mem cfg cfg.nBatches 0 s.n_steps m.step
        m.batchIdx).mp hmem
    exact ⟨by omega, hm1, by omega, hm2, t4 m hm⟩
  · intro i hi hri hsi
    have hmem : (s.n_steps + i + 1, i) ∈
        midIdxSpec cfg (List.range' 0 cfg.nBatches) s.n_steps :=
      (midIdxSpec_range_mem cfg cfg.nBatches 0 s.n_steps _ i).mpr
        ⟨i, hi, by omega, by omega, hri, hsi⟩
    rw [← ht3] at hmem
    obtain ⟨m, hm, hpair⟩ := List.mem_map.mp hmem
    exact ⟨m, hm, congrArg Prod.fst hpair, congrArg Prod.snd hpair⟩

/-- C7 counterexample: with report interval 2 and 3 batches per epoch, the
global step count reaches 40 — a multiple of `10 * report_interval = 20` —
during epoch 13's training pass (the run ends at step 42), yet the only
mid-training evaluation of the whole run fires at step 20: no evaluation
happens at step 40, because batch 0 of epoch 13 fails the
`i % report_interval == report_interval - 1` test of line 261 that guards
the 10-interval test of line 277. -/
theorem claim7_counterexample :
    (runT c7Config constOracle (-1)).map
      (fun out => (out.1.n_steps, midStepsOfTrace out.2)) = some (42, [20]) ∧
    40 % (10 * c7Config.report_interval) = 0 ∧
    (40 : ℕ) ≤ 42 ∧ (40 : ℕ) ∉ ([20] : List ℕ) :=
  ⟨by decide, by decide, by decide, by decide⟩

/-- C7 witness: `claim7_mid_evals` at a concrete training pass (epoch 0 of
the `c5Config` run, which fires one mid-training evaluation at step 10). -/
theorem claim7_witness :
    ∃ out, train c5Config c5Oracle (initState c5Config) = some out ∧
      (∀ m ∈ out.2.2, m.step % (10 * c5Config.report_interval) = 0 ∧
        m.batchIdx % c5Config.report_interval =
          c5Config.report_interval - 1) ∧
      out.1.evalCount = (initState c5Config).evalCount + 2 * out.2.2.length := by
  cases htr : train c5Config c5Oracle (initState c5Config) with
  | none => exact absurd htr (by decide)
  | some out =>
    have hc := claim7_mid_evals c5Config c5Oracle _ out.1 out.2.1 out.2.2 htr
    exact ⟨out, rfl,
      fun m hm => ⟨((hc.1 m hm).2.2.2.1), (hc.1 m hm).2.1⟩, hc.2.2⟩

/-- C8: computing the accuracies in `evaluate` divides by the example count
of the main-task validation (or test) dataset without a zero guard: when
that count is zero the call raises (returns `none`); and the denominator of
the auxiliary accuracy is that same main-task example count, not a separate
auxiliary count. -/
theorem claim8_division (cfg : Config) (tfr : ℚ) (m : ModelState)
    (isTest : Bool) (batches : List EvalBatch) :
    (batches.length ≠ 0 →
      (if isTest then cfg.nTestExamples else cfg.nValidExamples) = 0 →
      evaluate cfg tfr m isTest batches = none) ∧
    (evaluate c8Config 0 { teacher_forcing_ratio := 0 } false
      [⟨[], [], [], [], 1⟩] = none) ∧
    (∀ (r : EvalResult) (m2 : ModelState),
      evaluate cfg tfr m isTest batches = some (r, m2) →
      r.acc = ((batches.map (fun b => matching cfg.itos b.pred b.ref)).sum : ℚ) /
        (((if isTest then cfg.nTestExamples else cfg.nValidExamples) : ℕ) : ℚ) ∧
      r.accAux = (((if cfg.taskIsMulti then
          (batches.map (fun b => matching cfg.itosAux b.predAux b.refAux)).sum
          else 0) : ℕ) : ℚ) /
        (((if isTest then cfg.nTestExamples else cfg.nValidExamples) : ℕ) : ℚ)) := by
  refine ⟨?_, by decide, ?_⟩
  · intro hb hn
    simp only [evaluate]
    rw [if_neg hb, if_pos hn]
  · intro r m2 h
    simp only [evaluate] at h
    by_cases hb : batches.length = 0
    · rw [if_pos hb] at h
      simp at h
    · rw [if_neg hb] at h
      by_cases hn : (if isTest then cfg.nTestExamples else cfg.nValidExamples) = 0
      · rw [if_pos hn] at h
        simp at h
      · rw [if_neg hn] at h
        injection h with h1
        injection h1 with h2 h3
        rw [← h2]
        exact ⟨rfl, rfl⟩

/-- C8 witness: `claim8_division` instantiated concretely: a nonempty batch
list with a zero main-task example count makes `evaluate` raise, while a
successful call divides both accuracies by the same main-task count. -/
theorem claim8_witness :
    (([⟨[], [], [], [], 1⟩] : List EvalBatch).length ≠ 0 ∧
      (if false then c8Config.nTestExamples else c8Config.nValidExamples) = 0 ∧
      evaluate c8Config 0 { teacher_forcing_ratio := 0 } false
        [⟨[], [], [], [], 1⟩] = none) ∧
    (evaluate (sampleConfig Criterion.LOSS 2) 0 { teacher_forcing_ratio := 0 }
        false [⟨[], [], [], [], 1⟩] =
      some (⟨1, 0, 0⟩, { teacher_forcing_ratio := 0 }) ∧
      (⟨1, 0, 0⟩ : EvalResult).acc =
        ((([⟨[], [], [], [], 1⟩] : List EvalBatch).map
          (fun b => matching (sampleConfig Criterion.LOSS 2).itos b.pred b.ref)).sum : ℚ) /
        (((if false then (sampleConfig Criterion.LOSS 2).nTestExamples
          else (sampleConfig Criterion.LOSS 2).nValidExamples) : ℕ) : ℚ)) :=
  ⟨⟨by decide, by decide,
    (claim8_division c8Config 0 { teacher_forcing_ratio := 0 } false
      [⟨[], [], [], [], 1⟩]).1 (by decide) (by decide)⟩,
    ⟨by decide,
      ((claim8_division (sampleConfig Criterion.LOSS 2) 0
        { teacher_forcing_ratio := 0 } false [⟨[], [], [], [], 1⟩]).2.2
        ⟨1, 0, 0⟩ { teacher_forcing_ratio := 0 } (by decide)).1⟩⟩

/-- C9: a trainer call of `evaluate` sets the model's teacher-forcing ratio
to 0 on entry and restores it on exit to the trainer's stored ratio
`self.tfr`, so after the call the model's ratio equals the value the trainer
held before it; no field of the evaluation record or of the training
counters is modified by the call. -/
theorem claim9_eval_restores (cfg : Config) (orc : Oracle) (isTest : Bool)
    (s : FullState) (r : EvalResult) (s2 : FullState)
    (h : callEvaluate cfg orc isTest s = some (r, s2)) :
    s2.model.teacher_forcing_ratio = s.tfr ∧
    s2.emb = s.emb ∧ s2.n_epoch = s.n_epoch ∧ s2.n_steps = s.n_steps ∧
    s2.tfr = s.tfr ∧
    ∀ m : ModelState, (evalModelEnter m).teacher_forcing_ratio = 0 := by
  obtain ⟨c1, c2, c3, c4, c5, c6⟩ := callEvaluate_state cfg orc isTest s r s2 h
  exact ⟨c5, c1, c2, c3, c4, fun m => rfl⟩

/-- C9 witness: `claim9_eval_restores` at a concrete evaluation call from
`sampleState`, whose stored ratio is 1/2. -/
theorem claim9_witness :
    ∃ r s2,
      callEvaluate (sampleConfig Criterion.LOSS 2) constOracle false
        sampleState = some (r, s2) ∧
      s2.model.teacher_forcing_ratio = sampleState.tfr ∧
      s2.emb = sampleState.emb := by
  cases hc : callEvaluate (sampleConfig Criterion.LOSS 2) constOracle false
      sampleState with
  | none => exact absurd hc (by decide)
  | some p =>
    have h := claim9_eval_restores (sampleConfig Criterion.LOSS 2) constOracle
      false sampleState p.1 p.2 hc
    exact ⟨p.1, p.2, rfl, h.1, h.2.1⟩

/-- C10: `update_aux` mutates no trainer state at all — it returns the state
unchanged (its only effect is log output, here the returned flag of the
comparison against the stored best auxiliary accuracy) and writes no
checkpoint; moreover no operation of the trainer ever updates
`best_valid_acc_aux`, so it stays at its initial value -1 for a whole run
and the comparison in `update_aux` is always against -1. -/
theorem claim10_update_aux_inert (s : FullState) (a : ℚ) :
    (update_aux s a).1 = s ∧
    (update_aux s a).2 = decide (a ≥ s.emb.best_valid_acc_aux) ∧
    (∀ (cfg : Config) (l acc : ℚ),
      (update cfg s l acc).1.emb.best_valid_acc_aux =
        s.emb.best_valid_acc_aux) ∧
    (∀ cfg : Config, (burnResetEMB cfg s.emb).best_valid_acc_aux =
      s.emb.best_valid_acc_aux) ∧
    (∀ cfg : Config, (initState cfg).emb.best_valid_acc_aux = -1) ∧
    (∀ (cfg : Config) (orc : Oracle) (burning : ℤ)
      (out : FullState × List EpochRec),
      runT cfg orc burning = some out →
      out.1.emb.best_valid_acc_aux = -1) := by
  refine ⟨rfl, rfl, fun cfg l acc => update_accAux cfg s l acc,
    fun _ => rfl, fun _ => rfl, ?_⟩
  intro cfg orc burning out h
  have haux := (runAux_spec cfg orc burning cfg.total_epochs 0
    (initState cfg) out h).1
  rw [haux]
  rfl

/-- C10 witness: `claim10_update_aux_inert` at a concrete state and a
complete concrete run: the final state still has
`best_valid_acc_aux = -1`. -/
theorem claim10_witness :
    ((update_aux sampleState 0).1 = sampleState) ∧
    (∃ out, runT c7Config constOracle (-1) = some out ∧
      out.1.emb.best_valid_acc_aux = -1) := by
  refine ⟨(claim10_update_aux_inert sampleState 0).1, ?_⟩
  cases hr : runT c7Config constOracle (-1) with
  | none => exact absurd hr (by decide)
  | some out =>
    exact ⟨out, rfl,
      (claim10_update_aux_inert sampleState 0).2.2.2.2.2 c7Config constOracle
        (-1) out hr⟩

end MNMT
